import Mathlib

/-!
# Coverage instrumentation support of `src/llvm/ext/llvm_ext.cc`

A shallow embedding of the coverage part of the LLVM extension file
(`LLVMExtComputeFunctionHash`, `LLVMExtInsertInstrProfIncrement`,
`LLVMExtGenerateCoverageMapping`, `LLVMExtRunPassesWithCoverage`) and the
properties of its byte layout, hashing, skip policy and pass ordering.

Conventions of the embedding:

* byte strings (`StringRef`, `std::string`, `std::vector<uint8_t>`) are lists of `UInt8`;
* `uint64_t` / `uint32_t` values are natural numbers reduced `% 2^64` / `% 2^32` at the
  places where the source narrows or wraps;
* a module is the ordered list of its global variables, the list of its functions, and
  the state of its symbol table (the counter behind unique names and whether the target is
  NVPTX); `new GlobalVariable(*Mod, ...)` appends to the global list under the name the
  symbol table gives: the requested name when it is free, and otherwise the requested name
  followed by a dot and the next number that makes it unique;
* the library services the source calls but does not define (MD5, the filenames-section
  writer, the pass-pipeline parser, the lowering pass) are fields of `Externals`.
-/

namespace LLVMExt

/-! ## Byte strings -/

/-- Byte strings, as held by `StringRef`, `std::string` and `std::vector<uint8_t>`. -/
abbrev Bytes := List UInt8

/-- The bytes of an ASCII string literal of the source. -/
def ascii (s : String) : Bytes := s.toList.map (fun c => UInt8.ofNat c.toNat)

/-- Method `StringRef::starts_with`: the string is at least as long as the tag and its first
bytes are the tag. -/
def starts_with (s tag : Bytes) : Bool :=
  decide (tag.length ≤ s.length) && (s.take tag.length == tag)

/-- Method `StringRef::substr(Start)` with the default length: the start is clamped to the
string length and the rest of the string is returned. -/
def substr (s : Bytes) (Start : Nat) : Bytes := s.drop (min Start s.length)

/-! ## IR objects -/

/-- Linkage kinds of a global value (those the source uses, and the rest). -/
inductive Linkage where
  | ExternalLinkage
  | PrivateLinkage
  | LinkOnceODRLinkage
  | OtherLinkage (code : Nat)
  deriving DecidableEq, Repr

/-- Visibility of a global value. -/
inductive Visibility where
  | DefaultVisibility
  | HiddenVisibility
  | ProtectedVisibility
  deriving DecidableEq, Repr

/-- Initializers of global variables: the shapes the source builds, and the rest. -/
inductive Initializer where
  /-- No initializer (a declaration). -/
  | none
  /-- The struct of a four-field `i32` header followed by an `i8` array. -/
  | covMap (unused0 filenamesLength unused1 version : Nat) (filenames : Bytes)
  /-- A `ConstantDataArray` of `i8`. -/
  | dataArray (data : Bytes)
  /-- The address of a function. -/
  | function (name : Bytes)
  /-- Any other constant. -/
  | other (code : Nat)
  deriving DecidableEq, Repr

/-- A global variable with the attributes the source sets. Alignment `0` is unspecified. -/
structure GlobalVariable where
  name : Bytes
  initializer : Initializer
  isConstant : Bool
  linkage : Linkage
  sectionName : Bytes
  alignment : Nat
  visibility : Visibility
  deriving DecidableEq, Repr

/-- Operands of a call: the address of a named global, or an integer constant of a width. -/
inductive Value where
  | global (name : Bytes)
  | constInt (bits : Nat) (value : Nat)
  deriving DecidableEq, Repr

/-- A call instruction. -/
structure CallInst where
  callee : Value
  args : List Value
  deriving DecidableEq, Repr

/-- A function: its name and the calls of its body (empty for a declaration). -/
structure Function where
  name : Bytes
  body : List CallInst
  deriving DecidableEq, Repr

/-- A module: its global variables in list order, its functions, and the state of its
symbol table: `LastUnique`, the counter `makeUniqueName` increments (a 32-bit counter in
the library; the model lets it grow, which differs only after `2^32` renamings), and
whether the target triple is NVPTX, where no dot is put before the number. -/
structure Module where
  globals : List GlobalVariable
  functions : List Function
  LastUnique : Nat
  isNVPTX : Bool
  deriving DecidableEq, Repr

/-- The names bound in the symbol table of a module: those of its global variables and
functions (aliases and ifuncs, which a module may also hold, are not part of the model). -/
def Module.symbolNames (M : Module) : List Bytes :=
  M.globals.map (fun g => g.name) ++ M.functions.map (fun f => f.name)

/-- The decimal digits of a number, least significant first; the fuel bounds their count. -/
def decimalDigits : Nat → Nat → List Nat
  | 0, _ => []
  | fuel + 1, k => if k < 10 then [k] else (k % 10) :: decimalDigits fuel (k / 10)

/-- The decimal text of an unsigned number, as `raw_ostream` prints it. -/
def decimal (k : Nat) : Bytes :=
  (decimalDigits (k + 1) k).reverse.map (fun d => UInt8.ofNat (48 + d))

/-- The text `ValueSymbolTable::makeUniqueName` puts behind a name: a dot for a global value
(unless the target is NVPTX) and the number. -/
def uniqueSuffix (AppendDot : Bool) (LastUnique : Nat) : Bytes :=
  (if AppendDot then [46] else []) ++ decimal LastUnique

/-- The loop of `ValueSymbolTable::makeUniqueName`: the counter is incremented and the name
with the new suffix tried until one is free. The result is the name and the counter; one
unit of fuel is spent per try and `none` means the fuel ran out. -/
def makeUniqueName (taken : List Bytes) (AppendDot : Bool) (Name : Bytes) :
    Nat → Nat → Option (Bytes × Nat)
  | 0, _ => none
  | fuel + 1, LastUnique =>
    let LastUnique := LastUnique + 1
    let UniqueName := Name ++ uniqueSuffix AppendDot LastUnique
    if UniqueName ∈ taken then makeUniqueName taken AppendDot Name fuel LastUnique
    else some (UniqueName, LastUnique)

/-- Method `ValueSymbolTable::reinsertValue`, run when a named value is added to a module:
the name is kept when it is free, and made unique otherwise. The loop is given one try
more than there are names in the table. -/
def reinsertValue (taken : List Bytes) (AppendDot : Bool) (LastUnique : Nat) (Name : Bytes) :
    Option (Bytes × Nat) :=
  if Name ∈ taken then makeUniqueName taken AppendDot Name (taken.length + 1) LastUnique
  else some (Name, LastUnique)

/-- The constructor `new GlobalVariable(*Mod, ..., Name)`: the variable is appended to the
global list of the module under the name the symbol table gives it (a variable without a
name is not entered in the table). The result is the module and the variable as created;
`none` is for a naming loop that ran out of fuel. -/
def newGlobalVariable (M : Module) (G : GlobalVariable) : Option (Module × GlobalVariable) :=
  if G.name = [] then some ({ M with globals := M.globals ++ [G] }, G)
  else
    match reinsertValue M.symbolNames (!M.isNVPTX) M.LastUnique G.name with
    | none => none
    | some (Name, LastUnique) =>
      some ({ M with globals := M.globals ++ [{ G with name := Name }],
                     LastUnique := LastUnique },
            { G with name := Name })

/-- Constructor `ConstantInt::get(IntNTy, V)`: the constant of the given width, the value wrapped to it. -/
def ConstantInt.get (bits V : Nat) : Value := Value.constInt bits (V % 2 ^ bits)

/-! ## Hashing and instrumentation helpers -/

/-- Function `LLVMExtComputeFunctionHash`: the loop over the first `Len` bytes of `FuncName`, with
`hash` a `uint64_t` that wraps at every operation. -/
def LLVMExtComputeFunctionHash (FuncName : Bytes) : Nat :=
  FuncName.foldl
    (fun hash c => (((hash <<< 5) % 2 ^ 64 + hash) % 2 ^ 64 + c.toNat) % 2 ^ 64) 5381

/-- Function `LLVMExtGetInstrProfIncrementFunc`: the declaration of the increment intrinsic is
looked up by name, and inserted when the module has no value of that name. A global
variable of that name, on which the cast of the library fails, is outside the model. -/
def LLVMExtGetInstrProfIncrementFunc (M : Module) : Module × Value :=
  let Name := ascii "llvm.instrprof.increment"
  if Name ∈ M.symbolNames then (M, Value.global Name)
  else ({ M with functions := M.functions ++ [{ name := Name, body := [] }] }, Value.global Name)

/-- Function `LLVMExtCreateProfileNameVar`: `getOrInsertGlobal` of `__profn_` followed by the
function name, made a private constant initialised with the name bytes. When no global
variable has the name, one is created with the constructor (and so under a unique name
when a function holds the name); the setters that follow do not touch the name, and the
variable is given here as it is after them. The result is the module and the pointer to
the variable. -/
def LLVMExtCreateProfileNameVar (M : Module) (FuncName : Bytes) : Option (Module × Value) :=
  let Name := ascii "__profn_" ++ FuncName
  let setUp (g : GlobalVariable) : GlobalVariable :=
    { g with isConstant := true, linkage := Linkage.PrivateLinkage,
             initializer := Initializer.dataArray FuncName }
  if M.globals.any (fun g => g.name == Name) then
    some ({ M with globals := M.globals.map (fun g => if g.name == Name then setUp g else g) },
      Value.global Name)
  else
    match newGlobalVariable M (setUp
        { name := Name, initializer := Initializer.none, isConstant := false,
          linkage := Linkage.ExternalLinkage, sectionName := [], alignment := 0,
          visibility := Visibility.DefaultVisibility }) with
    | none => none
    | some (M, NameVar) => some (M, Value.global NameVar.name)

/-- The builder: the calls emitted so far at the insertion point. -/
abbrev IRBuilder := List CallInst

/-- Function `LLVMExtInsertInstrProfIncrement`: one call of the intrinsic is created at the
insertion point with the operands (name pointer, `i64` hash, `i32` counter count,
`i32` counter index). The pointer cast is the identity on opaque pointers. -/
def LLVMExtInsertInstrProfIncrement (B : IRBuilder) (IntrinsicFunc NamePtr : Value)
    (FuncHash NumCounters CounterIndex : Nat) : IRBuilder :=
  let NamePtrCast := NamePtr
  B ++ [{ callee := IntrinsicFunc,
          args := [NamePtrCast, ConstantInt.get 64 FuncHash,
                   ConstantInt.get 32 NumCounters, ConstantInt.get 32 CounterIndex] }]

/-! ## The region encoder called by the emitter -/

/-- The unrolled `do ... while` loop of the library routine `encodeULEB128`: seven bits per
byte, least significant group first, the high bit set on every byte but the last. -/
def encodeULEB128Loop : Nat → Nat → Bytes
  | 0, _ => []
  | fuel + 1, Value =>
    let Byte := Value &&& 0x7f
    let Value := Value >>> 7
    if Value ≠ 0 then UInt8.ofNat (Byte ||| 0x80) :: encodeULEB128Loop fuel Value
    else [UInt8.ofNat Byte]

/-- Modelled from the spec: the variable-length number encoding of the "compact
variable-length mapping-data format" (§2, §4.3); the routine lives in the coverage library,
not in this file. A `uint64_t` has at most ten groups of seven bits. -/
def encodeULEB128 (Value : Nat) : Bytes := encodeULEB128Loop 10 (Value % 2 ^ 64)

/-- A counter reference: the kind tag (`0` zero, `1` counter value reference,
`2` expression) and the identifier. -/
structure Counter where
  Kind : Nat
  ID : Nat
  deriving DecidableEq, Repr

/-- Constructor `coverage::Counter::getCounter`. -/
def Counter.getCounter (CounterId : Nat) : Counter := { Kind := 1, ID := CounterId }

/-- A code region: a counter and a source span in a file. -/
structure CounterMappingRegion where
  Count : Counter
  FileID : Nat
  LineStart : Nat
  ColumnStart : Nat
  LineEnd : Nat
  ColumnEnd : Nat
  deriving DecidableEq, Repr

/-- Constructor `coverage::CounterMappingRegion::makeRegion`. -/
def CounterMappingRegion.makeRegion (Count : Counter)
    (FileID LineStart ColumnStart LineEnd ColumnEnd : Nat) : CounterMappingRegion :=
  { Count := Count, FileID := FileID, LineStart := LineStart, ColumnStart := ColumnStart,
    LineEnd := LineEnd, ColumnEnd := ColumnEnd }

/-- The encoding of the code regions of one file: for each region the counter tag
(`Kind | ID << 2`), the line delta to the previous region, the start column, the number of
lines and the end column. -/
def encodeRegions : Nat → List CounterMappingRegion → Bytes
  | _, [] => []
  | PrevLineStart, R :: rest =>
    encodeULEB128 (R.Count.Kind ||| (R.Count.ID <<< 2))
      ++ encodeULEB128 (R.LineStart - PrevLineStart)
      ++ encodeULEB128 R.ColumnStart
      ++ encodeULEB128 (R.LineEnd - R.LineStart)
      ++ encodeULEB128 R.ColumnEnd
      ++ encodeRegions R.LineStart rest

/-- Modelled from the spec: the Region Encoder (§4.3), `CoverageMappingWriter::write` of the
coverage library, for code regions without counter expressions given in sorted order:
"virtual file count and mapping, expression count and definitions, then per-region
encoded fields", the regions grouped by file index, each group behind its region count. -/
def CoverageMappingWriter.write (VirtualFileMapping : List Nat)
    (MappingRegions : List CounterMappingRegion) : Bytes :=
  encodeULEB128 VirtualFileMapping.length
    ++ (VirtualFileMapping.map encodeULEB128).flatten
    ++ encodeULEB128 0
    ++ ((List.range VirtualFileMapping.length).map (fun FileID =>
          let group := MappingRegions.filter (fun R => R.FileID == FileID)
          encodeULEB128 group.length ++ encodeRegions 0 group)).flatten

/-! ## Library services -/

/-- Error values returned through `LLVMErrorRef`. -/
abbrev LLVMError := String

/-- A module pass, as run by the pass manager. -/
abbrev ModulePass := Module → Module

/-- The library services the source calls and does not define. -/
structure Externals where
  /-- The MD5 digest of a byte string, read as a little-endian number; `MD5Result::low()`
  is its low 64 bits. -/
  md5 : Bytes → Nat
  /-- Call `CoverageFilenamesSectionWriter(Filenames).write(OS, Compress)`: the serialised,
  possibly compressed, filenames section. -/
  writeFilenames : List Bytes → Bool → Bytes
  /-- Pass `InstrProfilingLoweringPass(Options, IsCS)`, by the `Atomic` option and `IsCS`. -/
  InstrProfilingLoweringPass : Bool → Bool → ModulePass
  /-- Method `PassBuilder::parsePassPipeline`: the stages the text stands for, or the error. -/
  parsePassPipeline : String → Except LLVMError (List ModulePass)

/-! ## Coverage mapping generation -/

/-- The coverage mapping format version written to the header. -/
def CovMapVersion : Nat := 6

/-- The loops `for (int i = 0; i < n; i++) CovFunRecord.push_back((x >> (i * 8)) & 0xFF)`. -/
def pushBackLE (n x : Nat) (CovFunRecord : Bytes) : Bytes :=
  (List.range n).foldl
    (fun buf i => buf ++ [UInt8.ofNat ((x >>> (i * 8)) &&& 0xFF)]) CovFunRecord

/-- The raw bytes of a function record (source lines 273-303): `MappingDataLength` is the
`uint32_t` the size of the mapping data is narrowed to. -/
def covFunRecordBytes (NameHashLow : Nat) (MappingData : Bytes)
    (FuncHash FilenamesHash : Nat) : Bytes :=
  let MappingDataLength := MappingData.length % 2 ^ 32
  let CovFunRecord : Bytes := []
  let CovFunRecord := pushBackLE 8 NameHashLow CovFunRecord
  let CovFunRecord := pushBackLE 4 MappingDataLength CovFunRecord
  let CovFunRecord := pushBackLE 8 FuncHash CovFunRecord
  let CovFunRecord := pushBackLE 8 FilenamesHash CovFunRecord
  CovFunRecord ++ MappingData

/-- The mapping data of a function: the single placeholder region (counter 0, file 0,
line 1, columns 1 to 10) written by the region encoder. -/
def placeholderMappingData : Bytes :=
  let C := Counter.getCounter 0
  let Region := CounterMappingRegion.makeRegion C 0 1 1 1 10
  CoverageMappingWriter.write [0] [Region]

/-- The body of the emission loop for a counter array `G` (source lines 246-320): the
record variable as the source hands it to the constructor, under the requested name
`__covrec_` followed by the function name, and with the attributes the setters give it.
Its name in the module is the one `newGlobalVariable` returns. -/
def makeCovFunVar (ext : Externals) (FilenamesHash : Nat) (G : GlobalVariable) :
    GlobalVariable :=
  let FuncName := substr G.name 8
  let NameHashLow := ext.md5 FuncName % 2 ^ 64
  let MappingData := placeholderMappingData
  let FuncHash := LLVMExtComputeFunctionHash FuncName
  { name := ascii "__covrec_" ++ FuncName,
    initializer := Initializer.dataArray
      (covFunRecordBytes NameHashLow MappingData FuncHash FilenamesHash),
    isConstant := true,
    linkage := Linkage.LinkOnceODRLinkage,
    sectionName := ascii "__llvm_covfun",
    alignment := 8,
    visibility := Visibility.HiddenVisibility }

/-- The loop `for (auto &G : Mod->globals())` (source lines 244-324). The iterator walks
the live global list, so the variables the body appends are visited as well: the state is
the position `i` and the current module. One unit of fuel is spent per loop test; `none`
means the fuel ran out before the end of the list was reached. -/
def emitLoop (ext : Externals) (FilenamesHash : Nat) : Nat → Nat → Module → Option Module
  | 0, _, _ => none
  | fuel + 1, i, M =>
    match M.globals[i]? with
    | none => some M
    | some G =>
      if starts_with G.name (ascii "__profc_") then
        match newGlobalVariable M (makeCovFunVar ext FilenamesHash G) with
        | none => none
        | some (M, _) => emitLoop ext FilenamesHash fuel (i + 1) M
      else
        emitLoop ext FilenamesHash fuel (i + 1) M

/-- Steps 1 and 2 of the generator (source lines 178-231): the filenames buffer and the
variable holding the header and the buffer, under the requested name
`__llvm_coverage_mapping` and as it is after the setters that follow its creation (section,
alignment, and the `linkonce_odr` linkage that replaces the private one). The length field
is an `i32` constant, the buffer size wrapped to 32 bits. Its name in the module is the one
`newGlobalVariable` returns. -/
def makeCovMapVar (ext : Externals) (SourceFile : Bytes) : GlobalVariable :=
  let Filenames := [SourceFile]
  let FilenamesBuffer := ext.writeFilenames Filenames true
  { name := ascii "__llvm_coverage_mapping",
    initializer := Initializer.covMap 0 (FilenamesBuffer.length % 2 ^ 32) 0 CovMapVersion
      FilenamesBuffer,
    isConstant := true,
    linkage := Linkage.LinkOnceODRLinkage,
    sectionName := ascii "__llvm_covmap",
    alignment := 8,
    visibility := Visibility.DefaultVisibility }

/-- Step 4 of the generator (source lines 329-343): `getOrInsertFunction` of the runtime
entry point, and the hidden reference to it, created under the requested name
`__llvm_profile_runtime_user`, when the name of the entry point is bound to a function. -/
def referenceProfileRuntime (M : Module) : Option Module :=
  let Name := ascii "__llvm_profile_runtime"
  if M.globals.any (fun g => g.name == Name) then some M
  else
    let functions :=
      if M.functions.any (fun f => f.name == Name) then M.functions
      else M.functions ++ [{ name := Name, body := [] }]
    match newGlobalVariable { M with functions := functions }
        { name := ascii "__llvm_profile_runtime_user",
          initializer := Initializer.function Name,
          isConstant := false,
          linkage := Linkage.LinkOnceODRLinkage,
          sectionName := [],
          alignment := 0,
          visibility := Visibility.HiddenVisibility } with
    | none => none
    | some (M, _) => some M

/-- Function `LLVMExtGenerateCoverageMapping`: the header variable is created, the emission
loop runs over the global list, and the runtime reference is added. The loop is given more
loop tests than it can need (twice the length of the list it starts from, plus one);
`none` would mean that the loop, or the naming of a created variable, did not end. The
counter `covfun_count` of the source is written and never read, and is left out. -/
def LLVMExtGenerateCoverageMapping (ext : Externals) (M : Module) (SourceFile : Bytes) :
    Option Module :=
  match newGlobalVariable M (makeCovMapVar ext SourceFile) with
  | none => none
  | some (M, _) =>
    let FilenamesBuffer := ext.writeFilenames [SourceFile] true
    let FilenamesHash := ext.md5 FilenamesBuffer % 2 ^ 64
    match emitLoop ext FilenamesHash (2 * M.globals.length + 1) 0 M with
    | none => none
    | some M => referenceProfileRuntime M

/-! ## The pass pipeline with coverage -/

/-- Method `ModulePassManager::run`: the stages are run in the order they were added. -/
def ModulePassManager.run (MPM : List ModulePass) (M : Module) : Module :=
  MPM.foldl (fun m pass => pass m) M

/-- Function `LLVMExtRunPassesWithCoverage`: the returned error (`none` for `nullptr`) and the
module after the call. The outer `none` is for a generator that did not end. The
target machine and the options argument reach only the pass builder of the library, whose
parser is a field of `Externals`; the analysis managers are fresh in every call. -/
def LLVMExtRunPassesWithCoverage (ext : Externals) (M : Module) (Passes : String)
    (EnableCoverage : Bool) (SourceFile : Bytes) : Option (Option LLVMError × Module) :=
  let MPM : List ModulePass := []
  let MPM := if EnableCoverage then MPM ++ [ext.InstrProfilingLoweringPass true false] else MPM
  match ext.parsePassPipeline Passes with
  | Except.error Err => some (some Err, M)
  | Except.ok stages =>
    let MPM := MPM ++ stages
    let M := ModulePassManager.run MPM M
    if EnableCoverage then
      match LLVMExtGenerateCoverageMapping ext M SourceFile with
      | none => none
      | some M => some (none, M)
    else some (none, M)

/-! ## Specification-side vocabulary -/

/-- Little-endian bytes of a number, as the record layout words it: `n` bytes, the least
significant first. -/
def littleEndian : Nat → Nat → Bytes
  | 0, _ => []
  | n + 1, x => UInt8.ofNat (x % 256) :: littleEndian n (x / 256)

/-- The number a little-endian byte field stands for. -/
def decodeLE : Bytes → Nat
  | [] => 0
  | b :: bs => b.toNat + 256 * decodeLE bs

/-- The test of the emission loop: the name starts with `__profc_`. -/
def isCounterArray (G : GlobalVariable) : Bool := starts_with G.name (ascii "__profc_")

/-- The global variables a call added to the module: the list after the call, without the
variables that were there before. -/
def newGlobals (before after : Module) : List GlobalVariable :=
  after.globals.drop before.globals.length

/-- The coverage records a call emitted: the added variables placed in `__llvm_covfun`. -/
def emittedRecords (before after : Module) : List GlobalVariable :=
  (newGlobals before after).filter (fun g => g.sectionName == ascii "__llvm_covfun")

/-- The module headers a call emitted: the added variables placed in `__llvm_covmap`. -/
def emittedHeaders (before after : Module) : List GlobalVariable :=
  (newGlobals before after).filter (fun g => g.sectionName == ascii "__llvm_covmap")

/-- The filenames hash the generator computes for a source file. -/
def filenamesHash (ext : Externals) (SourceFile : Bytes) : Nat :=
  ext.md5 (ext.writeFilenames [SourceFile] true) % 2 ^ 64

/-- A created variable against the variable the source asked for: the same variable, under
the requested name or under the requested name followed by a unique-name suffix. -/
def RenamedFrom (AppendDot : Bool) (requested created : GlobalVariable) : Prop :=
  created = requested
    ∨ ∃ k, created = { requested with name := requested.name ++ uniqueSuffix AppendDot k }

/-- The value of a list of decimal digits, least significant first. -/
def fromDigits : List Nat → Nat
  | [] => 0
  | d :: ds => d + 10 * fromDigits ds

/-- Modelled from the spec: the instrumentation of one function by the code generator, the
caller of the helpers above, which is not part of this file. "The function hash embedded
in both the increment call and the coverage record" is the rolling hash of the function
name (§4.1); the structural hash is "derived solely from name bytes" and "computed once
per function at instrumentation time" (§3); the inserter is given "the function's
identity hash" (§4.4). The name pointer is the `__profn_` variable of the function. -/
def instrumentFunction (M : Module) (B : IRBuilder) (FuncName : Bytes)
    (NumCounters CounterIndex : Nat) : Option (Module × IRBuilder) :=
  let declared := LLVMExtGetInstrProfIncrementFunc M
  match LLVMExtCreateProfileNameVar declared.1 FuncName with
  | none => none
  | some named =>
    let FuncHash := LLVMExtComputeFunctionHash FuncName
    some (named.1,
      LLVMExtInsertInstrProfIncrement B declared.2 named.2 FuncHash NumCounters CounterIndex)

/-- The function hash embedded in an increment call: its second operand, an `i64`. -/
def incrementCallHash (call : CallInst) : Option Nat :=
  match call.args[1]? with
  | some (Value.constInt 64 hash) => some hash
  | _ => none

/-- A stand-in for the filenames-section writer in the examples: the number of names, the
length of the name table, a zero compressed length, then the table of length-prefixed
names, without compression. The writer the source calls compresses; every theorem below is
stated for all library services, and this stand-in only serves to apply them. -/
def writeFilenamesStored (Filenames : List Bytes) (_Compress : Bool) : Bytes :=
  let FilenamesStr := (Filenames.map (fun Filename => encodeULEB128 Filename.length ++ Filename)).flatten
  encodeULEB128 Filenames.length ++ encodeULEB128 FilenamesStr.length ++ encodeULEB128 0
    ++ FilenamesStr

/-- A pass that removes the global variables of a given name, as dead-code elimination does
to an unused counter array. -/
def dropGlobal (name : Bytes) : ModulePass :=
  fun M => { M with globals := M.globals.filter (fun g => g.name != name) }

/-- Stand-ins for the library services in the examples: a digest (the little-endian value
of the bytes), a filenames writer that does not compress, a lowering pass that leaves the
module as it is, and a parser that knows two pipeline texts. They are not the library's
own; the theorems hold for every `Externals`, and the examples apply them to these. -/
def sampleExternals : Externals where
  md5 := decodeLE
  writeFilenames := writeFilenamesStored
  InstrProfilingLoweringPass := fun _ _ M => M
  parsePassPipeline := fun Passes =>
    if Passes = "default<O0>" then Except.ok []
    else if Passes = "globaldce" then Except.ok [dropGlobal (ascii "__profc_dead")]
    else Except.error "unknown pass name"

/-- A global variable of a given name with no initializer, for the examples. -/
def declaredGlobal (name : Bytes) : GlobalVariable :=
  { name := name, initializer := Initializer.none, isConstant := false,
    linkage := Linkage.ExternalLinkage, sectionName := [], alignment := 0,
    visibility := Visibility.DefaultVisibility }

/-- A module with the counter array of `foo` and an unrelated global, for the examples. -/
def sampleModule : Module :=
  { globals := [declaredGlobal (ascii "__profc_foo"),
                declaredGlobal (ascii "notAProfileCounter")],
    functions := [{ name := ascii "foo", body := [] }],
    LastUnique := 0,
    isNVPTX := false }

/-- A module with the counter arrays of `dead` and `foo`, for the examples. -/
def deadCodeModule : Module :=
  { globals := [declaredGlobal (ascii "__profc_dead"), declaredGlobal (ascii "__profc_foo")],
    functions := [{ name := ascii "foo", body := [] }],
    LastUnique := 0,
    isNVPTX := false }

/-- A module in which the name `__covrec_foo` is taken before the generator runs: the
counter array of `foo` next to a global of that name. -/
def collisionModule : Module :=
  { globals := [declaredGlobal (ascii "__profc_foo"), declaredGlobal (ascii "__covrec_foo")],
    functions := [{ name := ascii "foo", body := [] }],
    LastUnique := 0,
    isNVPTX := false }

/-! ## Lemmas -/

theorem ascii_profc : ascii "__profc_" = [95, 95, 112, 114, 111, 102, 99, 95] := by decide

theorem ascii_covrec : ascii "__covrec_" = [95, 95, 99, 111, 118, 114, 101, 99, 95] := by decide

theorem starts_with_iff (s tag : Bytes) :
    starts_with s tag = true ↔ s = tag ++ s.drop tag.length := by
  unfold starts_with
  constructor
  · intro h
    simp only [Bool.and_eq_true, decide_eq_true_eq, beq_iff_eq] at h
    conv_lhs => rw [← List.take_append_drop tag.length s, h.2]
  · intro h
    have hlen : tag.length ≤ s.length := by
      have := congrArg List.length h
      simp only [List.length_append] at this
      omega
    have htake : s.take tag.length = tag := by
      conv_lhs => rw [h]
      exact List.take_left _ _
    simp [hlen, htake]

theorem starts_with_append (tag t : Bytes) : starts_with (tag ++ t) tag = true := by
  rw [starts_with_iff, List.drop_left]

theorem substr_append (tag t : Bytes) : substr (tag ++ t) tag.length = t := by
  unfold substr
  rw [Nat.min_eq_left (by simp), List.drop_left]

theorem littleEndian_length (n x : Nat) : (littleEndian n x).length = n := by
  induction n generalizing x with
  | zero => rfl
  | succ n ih => simp [littleEndian, ih]

theorem littleEndian_succ_last (n x : Nat) :
    littleEndian (n + 1) x = littleEndian n x ++ [UInt8.ofNat (x / 256 ^ n % 256)] := by
  induction n generalizing x with
  | zero => simp [littleEndian]
  | succ n ih =>
    rw [littleEndian, ih (x / 256)]
    simp only [littleEndian, List.cons_append]
    rw [Nat.div_div_eq_div_mul, Nat.pow_succ, Nat.mul_comm]

theorem shift_and_byte (x i : Nat) : (x >>> (i * 8)) &&& 0xFF = x / 256 ^ i % 256 := by
  rw [Nat.shiftRight_eq_div_pow, Nat.mul_comm, Nat.pow_mul]
  exact Nat.and_pow_two_sub_one_eq_mod _ 8

theorem pushBackLE_eq (n x : Nat) (buf : Bytes) :
    pushBackLE n x buf = buf ++ littleEndian n x := by
  induction n with
  | zero => simp [pushBackLE, littleEndian]
  | succ n ih =>
    unfold pushBackLE at ih ⊢
    rw [List.range_succ, List.foldl_append, ih, littleEndian_succ_last]
    simp [shift_and_byte]

theorem decodeLE_littleEndian (n x : Nat) : decodeLE (littleEndian n x) = x % 256 ^ n := by
  induction n generalizing x with
  | zero => simp [littleEndian, decodeLE, Nat.mod_one]
  | succ n ih =>
    have hb : (UInt8.ofNat (x % 256)).toNat = x % 256 := by
      show x % 256 % 256 = x % 256
      exact Nat.mod_mod _ _
    simp only [littleEndian, decodeLE, ih, hb]
    rw [Nat.pow_succ, Nat.mul_comm (256 ^ n) 256, Nat.mod_mul]

theorem covrec_not_counterArray (t : Bytes) :
    starts_with (ascii "__covrec_" ++ t) (ascii "__profc_") = false := by
  rw [ascii_covrec, ascii_profc]
  simp [starts_with]

theorem makeCovMapVar_not_counterArray (ext : Externals) (SourceFile : Bytes) :
    isCounterArray (makeCovMapVar ext SourceFile) = false := by
  show starts_with (ascii "__llvm_coverage_mapping") (ascii "__profc_") = false
  decide

/-! ## Unique names -/

theorem fromDigits_decimalDigits (fuel : Nat) :
    ∀ k, k < 10 ^ fuel → fromDigits (decimalDigits fuel k) = k := by
  induction fuel with
  | zero => intro k h; simp at h; simp [decimalDigits, fromDigits, h]
  | succ fuel ih =>
    intro k h
    unfold decimalDigits
    by_cases hk : k < 10
    · simp [hk, fromDigits]
    · rw [if_neg hk]
      have h2 : k / 10 < 10 ^ fuel := by
        rw [Nat.div_lt_iff_lt_mul (by norm_num)]
        rw [Nat.pow_succ] at h
        exact h
      simp only [fromDigits, ih _ h2]
      omega

theorem decimalDigits_lt (fuel : Nat) : ∀ k, ∀ d ∈ decimalDigits fuel k, d < 10 := by
  induction fuel with
  | zero => intro k d h; simp [decimalDigits] at h
  | succ fuel ih =>
    intro k d h
    unfold decimalDigits at h
    by_cases hk : k < 10
    · rw [if_pos hk] at h
      simp only [List.mem_singleton] at h
      omega
    · rw [if_neg hk] at h
      rcases List.mem_cons.mp h with h | h
      · omega
      · exact ih _ d h

theorem decimal_injective (a b : Nat) (h : decimal a = decimal b) : a = b := by
  unfold decimal at h
  have key : ∀ l : List Nat, (∀ d ∈ l, d < 10) →
      (l.map (fun d => UInt8.ofNat (48 + d))).map (fun c => c.toNat - 48) = l := by
    intro l hl
    rw [List.map_map]
    conv_rhs => rw [← List.map_id l]
    apply List.map_congr_left
    intro d hd
    have := hl d hd
    show (48 + d) % 256 - 48 = d
    omega
  have ha := key (decimalDigits (a + 1) a).reverse
    (fun d hd => decimalDigits_lt _ _ d (List.mem_reverse.mp hd))
  have hb := key (decimalDigits (b + 1) b).reverse
    (fun d hd => decimalDigits_lt _ _ d (List.mem_reverse.mp hd))
  rw [h, hb] at ha
  have hd : decimalDigits (a + 1) a = decimalDigits (b + 1) b := by
    have := congrArg List.reverse ha
    simpa using this.symm
  have h1 := fromDigits_decimalDigits (a + 1) a
    (Nat.lt_of_lt_of_le (Nat.lt_pow_self (by norm_num) a) (Nat.pow_le_pow_right (by norm_num) (Nat.le_succ a)))
  have h2 := fromDigits_decimalDigits (b + 1) b
    (Nat.lt_of_lt_of_le (Nat.lt_pow_self (by norm_num) b) (Nat.pow_le_pow_right (by norm_num) (Nat.le_succ b)))
  rw [← h1, ← h2, hd]

theorem uniqueName_injective (AppendDot : Bool) (Name : Bytes) (a b : Nat)
    (h : Name ++ uniqueSuffix AppendDot a = Name ++ uniqueSuffix AppendDot b) : a = b := by
  have h1 := List.append_cancel_left h
  unfold uniqueSuffix at h1
  exact decimal_injective a b (List.append_cancel_left h1)

theorem makeUniqueName_congr (AppendDot : Bool) (Name : Bytes) (fuel : Nat) :
    ∀ (LastUnique : Nat) (t1 t2 : List Bytes),
      (∀ k, LastUnique < k →
        (Name ++ uniqueSuffix AppendDot k ∈ t1 ↔ Name ++ uniqueSuffix AppendDot k ∈ t2)) →
      makeUniqueName t1 AppendDot Name fuel LastUnique
        = makeUniqueName t2 AppendDot Name fuel LastUnique := by
  induction fuel with
  | zero => intro _ _ _ _; rfl
  | succ fuel ih =>
    intro LastUnique t1 t2 h
    unfold makeUniqueName
    simp only [h (LastUnique + 1) (Nat.lt_succ_self _)]
    rw [ih (LastUnique + 1) t1 t2 (fun k hk => h k (by omega))]

theorem makeUniqueName_some (AppendDot : Bool) (Name : Bytes) (fuel : Nat) :
    ∀ (taken : List Bytes) (LastUnique : Nat), taken.length < fuel →
      ∃ k, LastUnique < k
        ∧ makeUniqueName taken AppendDot Name fuel LastUnique
            = some (Name ++ uniqueSuffix AppendDot k, k)
        ∧ Name ++ uniqueSuffix AppendDot k ∉ taken := by
  induction fuel with
  | zero => intro taken LastUnique h; omega
  | succ fuel ih =>
    intro taken LastUnique h
    by_cases hc : Name ++ uniqueSuffix AppendDot (LastUnique + 1) ∈ taken
    · have hne : ∀ k, LastUnique + 1 < k →
          Name ++ uniqueSuffix AppendDot k ≠ Name ++ uniqueSuffix AppendDot (LastUnique + 1) := by
        intro k hk heq
        have := uniqueName_injective AppendDot Name _ _ heq
        omega
      have hlen : (taken.erase (Name ++ uniqueSuffix AppendDot (LastUnique + 1))).length < fuel := by
        rw [List.length_erase_of_mem hc]
        have := List.length_pos_of_mem hc
        omega
      obtain ⟨k, hk, hres, hnot⟩ := ih _ (LastUnique + 1) hlen
      refine ⟨k, by omega, ?_, ?_⟩
      · unfold makeUniqueName
        simp only [hc, if_true]
        rw [← hres]
        exact makeUniqueName_congr AppendDot Name fuel (LastUnique + 1) _ _
          (fun j hj => (List.mem_erase_of_ne (hne j hj)).symm)
      · intro hmem
        exact hnot ((List.mem_erase_of_ne (hne k hk)).mpr hmem)
    · refine ⟨LastUnique + 1, Nat.lt_succ_self _, ?_, hc⟩
      unfold makeUniqueName
      simp only [hc, if_false]


/-! ## Created variables and their names -/

theorem newGlobalVariable_spec (M : Module) (G : GlobalVariable) :
    ∃ M1 created, newGlobalVariable M G = some (M1, created)
      ∧ M1.globals = M.globals ++ [created]
      ∧ M1.functions = M.functions
      ∧ M1.isNVPTX = M.isNVPTX
      ∧ RenamedFrom (!M.isNVPTX) G created
      ∧ (G.name ∉ M.symbolNames → created = G)
      ∧ (G.name ∈ M.symbolNames → G.name ≠ [] →
          ∃ k, M.LastUnique < k
            ∧ created = { G with name := G.name ++ uniqueSuffix (!M.isNVPTX) k }
            ∧ created.name ∉ M.symbolNames) := by
  unfold newGlobalVariable
  by_cases hn : G.name = []
  · rw [if_pos hn]
    exact ⟨_, G, rfl, rfl, rfl, rfl, Or.inl rfl, fun _ => rfl, fun _ h => absurd hn h⟩
  · rw [if_neg hn]
    unfold reinsertValue
    by_cases hmem : G.name ∈ M.symbolNames
    · rw [if_pos hmem]
      obtain ⟨k, hk, hres, hnot⟩ := makeUniqueName_some (!M.isNVPTX) G.name
        (M.symbolNames.length + 1) M.symbolNames M.LastUnique (Nat.lt_succ_self _)
      rw [hres]
      exact ⟨_, _, rfl, rfl, rfl, rfl, Or.inr ⟨k, rfl⟩, fun h => absurd hmem h,
        fun _ _ => ⟨k, hk, rfl, hnot⟩⟩
    · rw [if_neg hmem]
      exact ⟨_, _, rfl, rfl, rfl, rfl, Or.inl rfl, fun _ => rfl, fun h => absurd h hmem⟩

theorem RenamedFrom.name_eq {AppendDot : Bool} {requested created : GlobalVariable}
    (h : RenamedFrom AppendDot requested created) :
    ∃ sfx, created.name = requested.name ++ sfx := by
  rcases h with h | ⟨k, h⟩
  · exact ⟨[], by rw [h, List.append_nil]⟩
  · exact ⟨uniqueSuffix AppendDot k, by rw [h]⟩

theorem RenamedFrom.initializer_eq {AppendDot : Bool} {requested created : GlobalVariable}
    (h : RenamedFrom AppendDot requested created) :
    created.initializer = requested.initializer := by
  rcases h with h | ⟨k, h⟩ <;> rw [h]

theorem RenamedFrom.sectionName_eq {AppendDot : Bool} {requested created : GlobalVariable}
    (h : RenamedFrom AppendDot requested created) :
    created.sectionName = requested.sectionName := by
  rcases h with h | ⟨k, h⟩ <;> rw [h]

theorem covmap_not_counterArray (t : Bytes) :
    starts_with (ascii "__llvm_coverage_mapping" ++ t) (ascii "__profc_") = false := by
  have h : ascii "__llvm_coverage_mapping"
      = [95, 95, 108, 108, 118, 109, 95, 99, 111, 118, 101, 114, 97, 103, 101, 95, 109, 97,
          112, 112, 105, 110, 103] := by decide
  rw [h, ascii_profc]
  simp [starts_with]

theorem record_not_counterArray (ext : Externals) (fh : Nat) (AppendDot : Bool)
    (G r : GlobalVariable) (h : RenamedFrom AppendDot (makeCovFunVar ext fh G) r) :
    isCounterArray r = false := by
  obtain ⟨sfx, hs⟩ := h.name_eq
  unfold isCounterArray
  rw [hs]
  show starts_with ((ascii "__covrec_" ++ substr G.name 8) ++ sfx) (ascii "__profc_") = false
  rw [List.append_assoc]
  exact covrec_not_counterArray _

theorem header_not_counterArray (ext : Externals) (SourceFile : Bytes) (AppendDot : Bool)
    (hdr : GlobalVariable) (h : RenamedFrom AppendDot (makeCovMapVar ext SourceFile) hdr) :
    isCounterArray hdr = false := by
  obtain ⟨sfx, hs⟩ := h.name_eq
  unfold isCounterArray
  rw [hs]
  exact covmap_not_counterArray _

/-! ## The emission loop -/

theorem emitLoop_spec (ext : Externals) (fh : Nat) :
    ∀ (n i : Nat) (M : Module),
      (M.globals.length - i) + (M.globals.drop i).countP isCounterArray ≤ n →
      ∃ M1 recs, (∀ fuel, n < fuel → emitLoop ext fh fuel i M = some M1)
        ∧ M1.globals = M.globals ++ recs
        ∧ M1.functions = M.functions
        ∧ M1.isNVPTX = M.isNVPTX
        ∧ List.Forall₂ (fun G r => RenamedFrom (!M.isNVPTX) (makeCovFunVar ext fh G) r)
            ((M.globals.drop i).filter isCounterArray) recs := by
  intro n
  induction n with
  | zero =>
    intro i M h
    have hi : M.globals.length ≤ i := by omega
    refine ⟨M, [], ?_, by simp, rfl, rfl, ?_⟩
    · intro fuel hf
      obtain ⟨f, rfl⟩ : ∃ f, fuel = f + 1 := ⟨fuel - 1, by omega⟩
      unfold emitLoop
      rw [List.getElem?_eq_none hi]
    · rw [List.drop_of_length_le hi]
      exact List.Forall₂.nil
  | succ n ih =>
    intro i M h
    by_cases hi : i < M.globals.length
    · have hdrop : M.globals.drop i = M.globals[i] :: M.globals.drop (i + 1) :=
        List.drop_eq_getElem_cons hi
      by_cases hG : starts_with M.globals[i].name (ascii "__profc_") = true
      · have hG2 : isCounterArray M.globals[i] = true := hG
        obtain ⟨Ma, created, hnew, hgl, hfn, hnv, hren, _, _⟩ :=
          newGlobalVariable_spec M (makeCovFunVar ext fh M.globals[i])
        have hcr : isCounterArray created = false :=
          record_not_counterArray ext fh _ _ _ hren
        have hdrop2 : Ma.globals.drop (i + 1) = M.globals.drop (i + 1) ++ [created] := by
          rw [hgl]
          exact List.drop_append_of_le_length (by omega)
        have hmeasure : (Ma.globals.length - (i + 1))
            + (Ma.globals.drop (i + 1)).countP isCounterArray ≤ n := by
          rw [hdrop2, List.countP_append, hgl]
          rw [hdrop, List.countP_cons_of_pos _ _ hG2] at h
          simp only [List.length_append, List.length_singleton, List.countP_cons,
            List.countP_nil, hcr]
          simp
          omega
        obtain ⟨M1, recs, hloop, hgl1, hfn1, hnv1, hall⟩ := ih (i + 1) Ma hmeasure
        refine ⟨M1, created :: recs, ?_, ?_, by rw [hfn1, hfn], by rw [hnv1, hnv], ?_⟩
        · intro fuel hf
          obtain ⟨f, rfl⟩ : ∃ f, fuel = f + 1 := ⟨fuel - 1, by omega⟩
          unfold emitLoop
          rw [List.getElem?_eq_getElem hi]
          simp only
          rw [if_pos hG, hnew]
          exact hloop f (by omega)
        · rw [hgl1, hgl, List.append_assoc]
          rfl
        · have hf : (M.globals.drop i).filter isCounterArray
              = M.globals[i] :: (M.globals.drop (i + 1)).filter isCounterArray := by
            rw [hdrop, List.filter_cons_of_pos hG2]
          have hr : [created].filter isCounterArray = [] := by
            rw [List.filter_cons_of_neg (by simp [hcr])]
            rfl
          rw [hdrop2, List.filter_append, hr, List.append_nil, hnv] at hall
          rw [hf]
          exact List.Forall₂.cons hren hall
      · have hG2 : isCounterArray M.globals[i] = false := by
          simpa [isCounterArray] using hG
        have hmeasure : (M.globals.length - (i + 1))
            + (M.globals.drop (i + 1)).countP isCounterArray ≤ n := by
          rw [hdrop] at h
          simp only [List.countP_cons, hG2] at h
          simp at h
          omega
        obtain ⟨M1, recs, hloop, hgl1, hfn1, hnv1, hall⟩ := ih (i + 1) M hmeasure
        refine ⟨M1, recs, ?_, hgl1, hfn1, hnv1, ?_⟩
        · intro fuel hf
          obtain ⟨f, rfl⟩ : ∃ f, fuel = f + 1 := ⟨fuel - 1, by omega⟩
          unfold emitLoop
          rw [List.getElem?_eq_getElem hi]
          simp only
          rw [if_neg hG]
          exact hloop f (by omega)
        · have hf : (M.globals.drop i).filter isCounterArray
              = (M.globals.drop (i + 1)).filter isCounterArray := by
            rw [hdrop, List.filter_cons_of_neg (by simp [hG2])]
          rw [hf]
          exact hall
    · have hi2 : M.globals.length ≤ i := Nat.le_of_not_lt hi
      refine ⟨M, [], ?_, by simp, rfl, rfl, ?_⟩
      · intro fuel hf
        obtain ⟨f, rfl⟩ : ∃ f, fuel = f + 1 := ⟨fuel - 1, by omega⟩
        unfold emitLoop
        rw [List.getElem?_eq_none hi2]
      · rw [List.drop_of_length_le hi2]
        exact List.Forall₂.nil

theorem referenceProfileRuntime_spec (M : Module) :
    ∃ M1 rest, referenceProfileRuntime M = some M1
      ∧ M1.globals = M.globals ++ rest
      ∧ ∀ g ∈ rest, g.sectionName = [] := by
  unfold referenceProfileRuntime
  by_cases h : (M.globals.any (fun g => g.name == ascii "__llvm_profile_runtime")) = true
  · exact ⟨M, [], by simp [h], by simp, by simp⟩
  · simp only [h]
    obtain ⟨Ma, created, hnew, hgl, _, _, hren, _, _⟩ := newGlobalVariable_spec
      { M with functions :=
          if (M.functions.any (fun f => f.name == ascii "__llvm_profile_runtime")) = true
          then M.functions
          else M.functions ++ [{ name := ascii "__llvm_profile_runtime", body := [] }] }
      { name := ascii "__llvm_profile_runtime_user",
        initializer := Initializer.function (ascii "__llvm_profile_runtime"),
        isConstant := false,
        linkage := Linkage.LinkOnceODRLinkage,
        sectionName := [],
        alignment := 0,
        visibility := Visibility.HiddenVisibility }
    refine ⟨Ma, [created], ?_, hgl, ?_⟩
    · simp only [Bool.false_eq_true, ↓reduceIte, hnew]
    · intro g hg
      rw [List.mem_singleton.mp hg, hren.sectionName_eq]

/-! ## The generator -/

theorem generate_steps (ext : Externals) (M : Module) (SourceFile : Bytes) :
    ∃ Ma hdr Mb recs M' rest,
      newGlobalVariable M (makeCovMapVar ext SourceFile) = some (Ma, hdr)
      ∧ Ma.globals = M.globals ++ [hdr]
      ∧ RenamedFrom (!M.isNVPTX) (makeCovMapVar ext SourceFile) hdr
      ∧ (∀ fuel, M.globals.length + M.globals.countP isCounterArray + 2 ≤ fuel →
          emitLoop ext (filenamesHash ext SourceFile) fuel 0 Ma = some Mb)
      ∧ Mb.globals = Ma.globals ++ recs
      ∧ List.Forall₂
          (fun G r => RenamedFrom (!M.isNVPTX)
            (makeCovFunVar ext (filenamesHash ext SourceFile) G) r)
          (M.globals.filter isCounterArray) recs
      ∧ LLVMExtGenerateCoverageMapping ext M SourceFile = some M'
      ∧ M'.globals = M.globals ++ (hdr :: recs ++ rest)
      ∧ ∀ g ∈ rest, g.sectionName = [] := by
  obtain ⟨Ma, hdr, hnew, hgl, hfn, hnv, hren, _, _⟩ :=
    newGlobalVariable_spec M (makeCovMapVar ext SourceFile)
  have hhdr : isCounterArray hdr = false := header_not_counterArray ext SourceFile _ _ hren
  have hcount : Ma.globals.countP isCounterArray = M.globals.countP isCounterArray := by
    rw [hgl, List.countP_append, List.countP_cons_of_neg _ _ (by simp [hhdr])]
    simp
  have hmeasure : (Ma.globals.length - 0) + (Ma.globals.drop 0).countP isCounterArray
      ≤ M.globals.length + M.globals.countP isCounterArray + 1 := by
    rw [List.drop_zero, hcount, hgl]
    simp only [List.length_append, List.length_singleton]
    omega
  obtain ⟨Mb, recs, hloop, hgl2, _, _, hall⟩ :=
    emitLoop_spec ext (filenamesHash ext SourceFile) _ 0 Ma hmeasure
  obtain ⟨Mc, rest, hrt, hgl3, hsec⟩ := referenceProfileRuntime_spec Mb
  have hfil : (Ma.globals.drop 0).filter isCounterArray
      = M.globals.filter isCounterArray := by
    rw [List.drop_zero, hgl, List.filter_append,
      List.filter_cons_of_neg (by simp [hhdr])]
    simp
  rw [hfil, hnv] at hall
  refine ⟨Ma, hdr, Mb, recs, Mc, rest, hnew, hgl, hren,
    fun fuel hf => hloop fuel (by omega), hgl2, hall, ?_, ?_, hsec⟩
  · unfold LLVMExtGenerateCoverageMapping
    rw [hnew]
    simp only
    have hl := hloop (2 * Ma.globals.length + 1) (by
      have := List.countP_le_length isCounterArray (l := M.globals)
      rw [hgl]
      simp only [List.length_append, List.length_singleton]
      omega)
    unfold filenamesHash at hl
    rw [hl]
    exact hrt
  · rw [hgl3, hgl2, hgl]
    simp

theorem forall2_records_section (ext : Externals) (fh : Nat) (AppendDot : Bool) :
    ∀ (counters recs : List GlobalVariable),
      List.Forall₂ (fun G r => RenamedFrom AppendDot (makeCovFunVar ext fh G) r) counters recs →
      ∀ r ∈ recs, r.sectionName = ascii "__llvm_covfun" := by
  intro counters recs h
  induction h with
  | nil => intro r hr; simp at hr
  | cons hab _ ih =>
    intro r hr
    rcases List.mem_cons.mp hr with h1 | h1
    · rw [h1, hab.sectionName_eq]
      rfl
    · exact ih r h1

theorem forall2_records_mem (ext : Externals) (fh : Nat) (AppendDot : Bool) :
    ∀ (counters recs : List GlobalVariable),
      List.Forall₂ (fun G r => RenamedFrom AppendDot (makeCovFunVar ext fh G) r) counters recs →
      (∀ r ∈ recs, ∃ G ∈ counters, RenamedFrom AppendDot (makeCovFunVar ext fh G) r)
        ∧ (∀ G ∈ counters, ∃ r ∈ recs, RenamedFrom AppendDot (makeCovFunVar ext fh G) r) := by
  intro counters recs h
  induction h with
  | nil => exact ⟨fun r hr => by simp at hr, fun G hG => by simp at hG⟩
  | cons hab _ ih =>
    constructor
    · intro r hr
      rcases List.mem_cons.mp hr with h1 | h1
      · exact ⟨_, List.mem_cons_self _ _, h1 ▸ hab⟩
      · obtain ⟨G, hG, hrel⟩ := ih.1 r h1
        exact ⟨G, List.mem_cons_of_mem _ hG, hrel⟩
    · intro G hG
      rcases List.mem_cons.mp hG with h1 | h1
      · exact ⟨_, List.mem_cons_self _ _, h1 ▸ hab⟩
      · obtain ⟨r, hr, hrel⟩ := ih.2 G h1
        exact ⟨r, List.mem_cons_of_mem _ hr, hrel⟩

theorem emitted_of_globals (ext : Externals) (M M' : Module) (SourceFile : Bytes)
    (hdr : GlobalVariable) (recs rest : List GlobalVariable)
    (hgl : M'.globals = M.globals ++ (hdr :: recs ++ rest))
    (hren : RenamedFrom (!M.isNVPTX) (makeCovMapVar ext SourceFile) hdr)
    (hall : List.Forall₂
      (fun G r => RenamedFrom (!M.isNVPTX)
        (makeCovFunVar ext (filenamesHash ext SourceFile) G) r)
      (M.globals.filter isCounterArray) recs)
    (hsec : ∀ g ∈ rest, g.sectionName = []) :
    emittedRecords M M' = recs ∧ emittedHeaders M M' = [hdr]
      ∧ M'.globals.take M.globals.length = M.globals := by
  have hrs := forall2_records_section ext _ _ _ _ hall
  have hhs : hdr.sectionName = ascii "__llvm_covmap" := by
    rw [hren.sectionName_eq]
    rfl
  have hrecs1 : recs.filter (fun g => g.sectionName == ascii "__llvm_covfun") = recs := by
    rw [List.filter_eq_self]
    intro g hg
    rw [hrs g hg]
    decide
  have hrecs2 : recs.filter (fun g => g.sectionName == ascii "__llvm_covmap") = [] := by
    rw [List.filter_eq_nil_iff]
    intro g hg
    rw [hrs g hg]
    decide
  have hrest1 : rest.filter (fun g => g.sectionName == ascii "__llvm_covfun") = [] := by
    rw [List.filter_eq_nil_iff]
    intro g hg
    rw [hsec g hg]
    decide
  have hrest2 : rest.filter (fun g => g.sectionName == ascii "__llvm_covmap") = [] := by
    rw [List.filter_eq_nil_iff]
    intro g hg
    rw [hsec g hg]
    decide
  refine ⟨?_, ?_, ?_⟩
  · unfold emittedRecords newGlobals
    rw [hgl, List.drop_left, List.cons_append, List.filter_cons,
      if_neg (by rw [hhs]; decide), List.filter_append, hrecs1, hrest1, List.append_nil]
  · unfold emittedHeaders newGlobals
    rw [hgl, List.drop_left, List.cons_append, List.filter_cons,
      if_pos (by rw [hhs]; decide), List.filter_append, hrecs2, hrest2]
    rfl
  · rw [hgl]
    exact List.take_left _ _

theorem generate_emitted (ext : Externals) (M : Module) (SourceFile : Bytes) :
    ∃ M' hdr,
      LLVMExtGenerateCoverageMapping ext M SourceFile = some M'
      ∧ M'.globals.take M.globals.length = M.globals
      ∧ emittedHeaders M M' = [hdr]
      ∧ RenamedFrom (!M.isNVPTX) (makeCovMapVar ext SourceFile) hdr
      ∧ List.Forall₂
          (fun G r => RenamedFrom (!M.isNVPTX)
            (makeCovFunVar ext (filenamesHash ext SourceFile) G) r)
          (M.globals.filter isCounterArray) (emittedRecords M M') := by
  obtain ⟨_, hdr, _, recs, M', rest, _, _, hren, _, _, hall, hgen, hgl, hsec⟩ :=
    generate_steps ext M SourceFile
  obtain ⟨h1, h2, h3⟩ := emitted_of_globals ext M M' SourceFile hdr recs rest hgl hren hall hsec
  refine ⟨M', hdr, hgen, h3, h2, hren, ?_⟩
  rw [h1]
  exact hall

/-! ## Record layout -/

theorem covFunRecordBytes_eq (a b c : Nat) (m : Bytes) :
    covFunRecordBytes a m b c
      = littleEndian 8 a ++ (littleEndian 4 (m.length % 2 ^ 32)
          ++ (littleEndian 8 b ++ (littleEndian 8 c ++ m))) := by
  unfold covFunRecordBytes
  simp only [pushBackLE_eq, List.nil_append, List.append_assoc]

theorem covFunRecordBytes_length (a b c : Nat) (m : Bytes) :
    (covFunRecordBytes a m b c).length = 28 + m.length := by
  rw [covFunRecordBytes_eq]
  simp only [List.length_append, littleEndian_length]
  omega

theorem covFunRecordBytes_field0 (a b c : Nat) (m : Bytes) :
    decodeLE ((covFunRecordBytes a m b c).take 8) = a % 2 ^ 64 := by
  rw [covFunRecordBytes_eq, List.take_left' (littleEndian_length 8 a), decodeLE_littleEndian]
  norm_num

theorem covFunRecordBytes_field8 (a b c : Nat) (m : Bytes) :
    decodeLE (((covFunRecordBytes a m b c).drop 8).take 4) = m.length % 2 ^ 32 := by
  rw [covFunRecordBytes_eq, List.drop_left' (littleEndian_length 8 a),
    List.take_left' (littleEndian_length 4 _), decodeLE_littleEndian]
  exact Nat.mod_mod _ _

theorem covFunRecordBytes_field12 (a b c : Nat) (m : Bytes) :
    decodeLE (((covFunRecordBytes a m b c).drop 12).take 8) = b % 2 ^ 64 := by
  rw [covFunRecordBytes_eq, ← List.append_assoc,
    List.drop_left' (by simp [littleEndian_length]),
    List.take_left' (littleEndian_length 8 b), decodeLE_littleEndian]
  norm_num

theorem covFunRecordBytes_field20 (a b c : Nat) (m : Bytes) :
    decodeLE (((covFunRecordBytes a m b c).drop 20).take 8) = c % 2 ^ 64 := by
  rw [covFunRecordBytes_eq, ← List.append_assoc, ← List.append_assoc,
    List.drop_left' (by simp [littleEndian_length]),
    List.take_left' (littleEndian_length 8 c), decodeLE_littleEndian]
  norm_num

theorem covFunRecordBytes_tail (a b c : Nat) (m : Bytes) :
    (covFunRecordBytes a m b c).drop 28 = m := by
  rw [covFunRecordBytes_eq, ← List.append_assoc, ← List.append_assoc, ← List.append_assoc,
    List.drop_left' (by simp [littleEndian_length])]

theorem computeFunctionHash_lt (s : Bytes) : LLVMExtComputeFunctionHash s < 2 ^ 64 := by
  unfold LLVMExtComputeFunctionHash
  have key : ∀ (l : Bytes) (init : Nat), init < 2 ^ 64 →
      l.foldl (fun hash c => (((hash <<< 5) % 2 ^ 64 + hash) % 2 ^ 64 + c.toNat) % 2 ^ 64) init
        < 2 ^ 64 := by
    intro l
    induction l with
    | nil => intro init h; exact h
    | cons c l ih =>
      intro init _
      rw [List.foldl_cons]
      exact ih _ (Nat.mod_lt _ (by norm_num))
  exact key s 5381 (by norm_num)

theorem placeholderMappingData_eq : placeholderMappingData = [1, 0, 0, 1, 1, 1, 1, 0, 10] := by
  decide

theorem ascii_profc_length : (ascii "__profc_").length = 8 := by decide

theorem substr_counterArray (n : Bytes) : substr (ascii "__profc_" ++ n) 8 = n := by
  have h := substr_append (ascii "__profc_") n
  rw [ascii_profc_length] at h
  exact h

theorem counterArray_name (G : GlobalVariable) (h : isCounterArray G = true) :
    G.name = ascii "__profc_" ++ substr G.name 8 := by
  have h1 := (starts_with_iff G.name (ascii "__profc_")).mp h
  have hlen : 8 ≤ G.name.length := by
    have := congrArg List.length h1
    rw [List.length_append, ascii_profc_length] at this
    omega
  rw [ascii_profc_length] at h1
  unfold substr
  rw [Nat.min_eq_left hlen]
  exact h1

/-! ## Records under their requested names -/

theorem record_initializer (ext : Externals) (fh : Nat) (AppendDot : Bool)
    (G r : GlobalVariable) (h : RenamedFrom AppendDot (makeCovFunVar ext fh G) r) :
    r.initializer = Initializer.dataArray
      (covFunRecordBytes (ext.md5 (substr G.name 8) % 2 ^ 64) placeholderMappingData
        (LLVMExtComputeFunctionHash (substr G.name 8)) fh) := by
  rw [h.initializer_eq]
  rfl

theorem forall2_records_initializer (ext : Externals) (fh : Nat) (AppendDot : Bool) :
    ∀ (counters recs : List GlobalVariable),
      List.Forall₂ (fun G r => RenamedFrom AppendDot (makeCovFunVar ext fh G) r) counters recs →
      recs.map (fun r => r.initializer)
        = counters.map (fun G => (makeCovFunVar ext fh G).initializer) := by
  intro counters recs h
  induction h with
  | nil => rfl
  | cons hab _ ih => rw [List.map_cons, List.map_cons, ih, hab.initializer_eq]

theorem createProfileNameVar_some (M : Module) (FuncName : Bytes) :
    ∃ M1 NamePtr, LLVMExtCreateProfileNameVar M FuncName = some (M1, NamePtr) := by
  unfold LLVMExtCreateProfileNameVar
  by_cases h : (M.globals.any (fun g => g.name == ascii "__profn_" ++ FuncName)) = true
  · simp only [h, if_true]
    exact ⟨_, _, rfl⟩
  · simp only [h]
    obtain ⟨Ma, created, hnew, _⟩ := newGlobalVariable_spec M
      { name := ascii "__profn_" ++ FuncName, initializer := Initializer.dataArray FuncName,
        isConstant := true, linkage := Linkage.PrivateLinkage, sectionName := [],
        alignment := 0, visibility := Visibility.DefaultVisibility }
    refine ⟨Ma, Value.global created.name, ?_⟩
    simp only [Bool.false_eq_true, ↓reduceIte]
    rw [hnew]

/-! ## Record layout and hashing -/

/-- C1: the record bytes are the little-endian `nameHashLow` (8 bytes), the little-endian
32-bit `mappingLength` (4 bytes), the little-endian `functionHash` and `filenamesHash`
(8 bytes each), then the mapping bytes unchanged; the record is `28 + len(mappingBytes)`
bytes long, and the fields read back at offsets 0, 12 and 20 are the three hashes. -/
theorem covFunRecord_layout (nameHashLow functionHash filenamesHash : Nat)
    (mappingBytes : Bytes) (h1 : nameHashLow < 2 ^ 64) (h2 : functionHash < 2 ^ 64)
    (h3 : filenamesHash < 2 ^ 64) :
    covFunRecordBytes nameHashLow mappingBytes functionHash filenamesHash
        = littleEndian 8 nameHashLow ++ littleEndian 4 (mappingBytes.length % 2 ^ 32)
            ++ littleEndian 8 functionHash ++ littleEndian 8 filenamesHash ++ mappingBytes
      ∧ (covFunRecordBytes nameHashLow mappingBytes functionHash filenamesHash).length
          = 28 + mappingBytes.length
      ∧ decodeLE ((covFunRecordBytes nameHashLow mappingBytes functionHash
          filenamesHash).take 8) = nameHashLow
      ∧ decodeLE (((covFunRecordBytes nameHashLow mappingBytes functionHash
          filenamesHash).drop 12).take 8) = functionHash
      ∧ decodeLE (((covFunRecordBytes nameHashLow mappingBytes functionHash
          filenamesHash).drop 20).take 8) = filenamesHash := by
  refine ⟨?_, covFunRecordBytes_length _ _ _ _, ?_, ?_, ?_⟩
  · rw [covFunRecordBytes_eq]
    simp only [List.append_assoc]
  · rw [covFunRecordBytes_field0, Nat.mod_eq_of_lt h1]
  · rw [covFunRecordBytes_field12, Nat.mod_eq_of_lt h2]
  · rw [covFunRecordBytes_field20, Nat.mod_eq_of_lt h3]

/-- Witness of C1: the record of hashes 1, 2, 3 with the one mapping byte 7. -/
theorem covFunRecord_layout_witness :
    (1 : Nat) < 2 ^ 64 ∧ (2 : Nat) < 2 ^ 64 ∧ (3 : Nat) < 2 ^ 64
      ∧ (covFunRecordBytes 1 [7] 2 3).length = 28 + 1
      ∧ decodeLE (((covFunRecordBytes 1 [7] 2 3).drop 12).take 8) = 2 :=
  ⟨by decide, by decide, by decide,
    (covFunRecord_layout 1 2 3 [7] (by decide) (by decide) (by decide)).2.1,
    (covFunRecord_layout 1 2 3 [7] (by decide) (by decide) (by decide)).2.2.2.1⟩

/-- C2: in every record the generator emits, the 32-bit little-endian field at bytes
8..11 is the number of mapping bytes that follow the 28-byte fixed part. -/
theorem mappingLength_is_mapping_size (ext : Externals) (M : Module) (SourceFile : Bytes) :
    ∃ M', LLVMExtGenerateCoverageMapping ext M SourceFile = some M'
      ∧ ∀ r ∈ emittedRecords M M', ∃ data, r.initializer = Initializer.dataArray data
          ∧ 28 ≤ data.length
          ∧ decodeLE ((data.drop 8).take 4) = (data.drop 28).length := by
  obtain ⟨M', _, hgen, _, _, _, hall⟩ := generate_emitted ext M SourceFile
  refine ⟨M', hgen, ?_⟩
  intro r hr
  obtain ⟨G, _, hren⟩ := (forall2_records_mem ext _ _ _ _ hall).1 r hr
  refine ⟨_, record_initializer ext _ _ G r hren, ?_, ?_⟩
  · rw [covFunRecordBytes_length]
    omega
  · rw [covFunRecordBytes_field8, covFunRecordBytes_tail, placeholderMappingData_eq]
    rfl

/-- C4: the hash of the empty string is 5381 and appending a byte `b` maps the hash `h`
to `(33 * h + b) mod 2^64`, with `b` read as an unsigned value below 256; the function
is total and its value fits 64 bits. -/
theorem computeFunctionHash_rolling (s : Bytes) (b : UInt8) :
    LLVMExtComputeFunctionHash [] = 5381
      ∧ LLVMExtComputeFunctionHash (s ++ [b])
          = (33 * LLVMExtComputeFunctionHash s + b.toNat) % 2 ^ 64
      ∧ b.toNat < 256
      ∧ LLVMExtComputeFunctionHash (s ++ [b]) < 2 ^ 64 := by
  refine ⟨rfl, ?_, UInt8.toNat_lt_size b, computeFunctionHash_lt _⟩
  unfold LLVMExtComputeFunctionHash
  rw [List.foldl_append]
  simp only [List.foldl_cons, List.foldl_nil, Nat.shiftLeft_eq]
  omega

/-! ## Records and counter arrays -/

/-- C3: the `i64` hash operand of the increment call written for a function named `n`
equals the function hash read back from the coverage record the generator emits for the
counter array `__profc_n` of that function, whatever name the record is created under. The
records stand one to one, in order, against the counter arrays of the module. -/
theorem functionHash_crossReference (ext : Externals) (M0 : Module) (B : IRBuilder)
    (n : Bytes) (NumCounters CounterIndex : Nat) (M : Module) (SourceFile : Bytes)
    (G : GlobalVariable) (hG : G ∈ M.globals) (hname : G.name = ascii "__profc_" ++ n) :
    ∃ M1 B1 call hash,
      instrumentFunction M0 B n NumCounters CounterIndex = some (M1, B1)
      ∧ B1.getLast? = some call
      ∧ incrementCallHash call = some hash
      ∧ ∃ M', LLVMExtGenerateCoverageMapping ext M SourceFile = some M'
        ∧ List.Forall₂
            (fun G2 r => RenamedFrom (!M.isNVPTX)
                (makeCovFunVar ext (filenamesHash ext SourceFile) G2) r
              ∧ (G2.name = ascii "__profc_" ++ n →
                  ∃ data, r.initializer = Initializer.dataArray data
                    ∧ decodeLE ((data.drop 12).take 8) = hash))
            (M.globals.filter isCounterArray) (emittedRecords M M')
        ∧ ∃ r ∈ emittedRecords M M',
            RenamedFrom (!M.isNVPTX) (makeCovFunVar ext (filenamesHash ext SourceFile) G) r
            ∧ ∃ data, r.initializer = Initializer.dataArray data
              ∧ decodeLE ((data.drop 12).take 8) = hash := by
  obtain ⟨Mn, NamePtr, hcreate⟩ :=
    createProfileNameVar_some (LLVMExtGetInstrProfIncrementFunc M0).1 n
  obtain ⟨M', _, hgen, _, _, _, hall⟩ := generate_emitted ext M SourceFile
  have hc : isCounterArray G = true := by
    unfold isCounterArray
    rw [hname]
    exact starts_with_append _ _
  have hdecode : ∀ (G2 r : GlobalVariable),
      RenamedFrom (!M.isNVPTX) (makeCovFunVar ext (filenamesHash ext SourceFile) G2) r →
      G2.name = ascii "__profc_" ++ n →
      ∃ data, r.initializer = Initializer.dataArray data
        ∧ decodeLE ((data.drop 12).take 8) = LLVMExtComputeFunctionHash n := by
    intro G2 r hren hn2
    refine ⟨_, record_initializer ext _ _ G2 r hren, ?_⟩
    rw [covFunRecordBytes_field12, hn2, substr_counterArray,
      Nat.mod_eq_of_lt (computeFunctionHash_lt n)]
  refine ⟨Mn,
    LLVMExtInsertInstrProfIncrement B (LLVMExtGetInstrProfIncrementFunc M0).2 NamePtr
      (LLVMExtComputeFunctionHash n) NumCounters CounterIndex,
    { callee := (LLVMExtGetInstrProfIncrementFunc M0).2,
                   args := [NamePtr, ConstantInt.get 64 (LLVMExtComputeFunctionHash n),
                            ConstantInt.get 32 NumCounters, ConstantInt.get 32 CounterIndex] },
    LLVMExtComputeFunctionHash n, ?_, ?_, ?_, M', hgen, ?_, ?_⟩
  · unfold instrumentFunction
    simp only [hcreate]
  · unfold LLVMExtInsertInstrProfIncrement
    simp
  · show some (LLVMExtComputeFunctionHash n % 2 ^ 64) = some (LLVMExtComputeFunctionHash n)
    rw [Nat.mod_eq_of_lt (computeFunctionHash_lt n)]
  · exact hall.imp (fun G2 r hren => ⟨hren, hdecode G2 r hren⟩)
  · obtain ⟨r, hr, hren⟩ := (forall2_records_mem ext _ _ _ _ hall).2 G
      (List.mem_filter.mpr ⟨hG, hc⟩)
    exact ⟨r, hr, hren, hdecode G r hren hname⟩

/-- Witness of C3: the function `foo` of the module in which `__covrec_foo` is taken. -/
theorem functionHash_crossReference_witness :
    declaredGlobal (ascii "__profc_foo") ∈ collisionModule.globals
      ∧ (declaredGlobal (ascii "__profc_foo")).name = ascii "__profc_" ++ ascii "foo"
      ∧ ∃ M1 B1 call hash,
        instrumentFunction sampleModule [] (ascii "foo") 1 0 = some (M1, B1)
        ∧ B1.getLast? = some call
        ∧ incrementCallHash call = some hash
        ∧ ∃ M', LLVMExtGenerateCoverageMapping sampleExternals collisionModule (ascii "test.c")
            = some M'
          ∧ ∃ r ∈ emittedRecords collisionModule M',
              ∃ data, r.initializer = Initializer.dataArray data
                ∧ decodeLE ((data.drop 12).take 8) = hash :=
  ⟨by decide, by decide,
    (functionHash_crossReference sampleExternals sampleModule [] (ascii "foo") 1 0
      collisionModule (ascii "test.c") (declaredGlobal (ascii "__profc_foo"))
      (by decide) (by decide)).imp
      (fun _ h => h.imp (fun _ h => h.imp (fun _ h => h.imp (fun _ h =>
        ⟨h.1, h.2.1, h.2.2.1, h.2.2.2.imp (fun _ h =>
          ⟨h.1, h.2.2.imp (fun _ h => ⟨h.1, h.2.2⟩)⟩)⟩))))⟩

/-- C5: a global whose name does not start with `__profc_` is skipped: the generator
returns, the records it emits stand one to one, in order, against the counter arrays among
the other globals, with the contents the generator gives the records of the module
without that global, and the global is still in the module, in its place and unchanged. -/
theorem non_counter_global_skipped (ext : Externals) (M : Module)
    (before after : List GlobalVariable) (g : GlobalVariable) (SourceFile : Bytes)
    (hM : M.globals = before ++ g :: after)
    (hg : starts_with g.name (ascii "__profc_") = false) :
    ∃ M', LLVMExtGenerateCoverageMapping ext M SourceFile = some M'
      ∧ List.Forall₂
          (fun G r => RenamedFrom (!M.isNVPTX)
            (makeCovFunVar ext (filenamesHash ext SourceFile) G) r)
          ((before ++ after).filter isCounterArray) (emittedRecords M M')
      ∧ (emittedRecords M M').length = (before ++ after).countP isCounterArray
      ∧ (∃ N', LLVMExtGenerateCoverageMapping ext { M with globals := before ++ after }
            SourceFile = some N'
          ∧ (emittedRecords { M with globals := before ++ after } N').map
              (fun r => r.initializer)
            = (emittedRecords M M').map (fun r => r.initializer))
      ∧ M'.globals.take M.globals.length = M.globals
      ∧ M'.globals[before.length]? = some g := by
  obtain ⟨M', _, hgen, htake, _, _, hall⟩ := generate_emitted ext M SourceFile
  obtain ⟨N', _, hgen2, _, _, _, hall2⟩ :=
    generate_emitted ext { M with globals := before ++ after } SourceFile
  have hgc : isCounterArray g = false := hg
  have hfil : M.globals.filter isCounterArray = (before ++ after).filter isCounterArray := by
    rw [hM, List.filter_append, List.filter_cons_of_neg (by simp [hgc]), List.filter_append]
  rw [hfil] at hall
  refine ⟨M', hgen, hall, ?_, ⟨N', hgen2, ?_⟩, htake, ?_⟩
  · rw [← hall.length_eq, List.countP_eq_length_filter]
  · rw [forall2_records_initializer ext _ _ _ _ hall,
      forall2_records_initializer ext _ _ _ _ hall2]
  · have h1 : M'.globals[before.length]? = (M'.globals.take M.globals.length)[before.length]? := by
      rw [List.getElem?_take]
      rw [hM]
      simp
    rw [h1, htake, hM, List.getElem?_append_right (Nat.le_refl _), Nat.sub_self,
      List.getElem?_cons_zero]

/-- Witness of C5: the global `notAProfileCounter` behind the counter array of `foo`. -/
theorem non_counter_global_skipped_witness :
    sampleModule.globals
        = [declaredGlobal (ascii "__profc_foo")] ++ declaredGlobal (ascii "notAProfileCounter") :: []
      ∧ starts_with (declaredGlobal (ascii "notAProfileCounter")).name (ascii "__profc_") = false
      ∧ ∃ M', LLVMExtGenerateCoverageMapping sampleExternals sampleModule (ascii "test.c")
            = some M'
          ∧ (emittedRecords sampleModule M').length
              = ([declaredGlobal (ascii "__profc_foo")] ++ []).countP isCounterArray
          ∧ M'.globals[[declaredGlobal (ascii "__profc_foo")].length]?
              = some (declaredGlobal (ascii "notAProfileCounter")) :=
  ⟨by decide, by decide,
    (non_counter_global_skipped sampleExternals sampleModule
      [declaredGlobal (ascii "__profc_foo")] [] (declaredGlobal (ascii "notAProfileCounter"))
      (ascii "test.c") (by decide) (by decide)).imp
      (fun _ h => ⟨h.1, h.2.2.1, h.2.2.2.2.2⟩)⟩

/-! ## The pass pipeline -/

/-- C7: when the pipeline text does not parse, the call returns the parser error and the
module it was given, with coverage enabled or not and whatever the lowering pass and the
other stages would do: nothing was run and nothing was emitted. -/
theorem parse_failure_aborts (ext : Externals) (M : Module) (Passes : String)
    (EnableCoverage : Bool) (SourceFile : Bytes) (Err : LLVMError)
    (h : ext.parsePassPipeline Passes = Except.error Err) :
    ∃ M', LLVMExtRunPassesWithCoverage ext M Passes EnableCoverage SourceFile
        = some (some Err, M')
      ∧ M' = M
      ∧ newGlobals M M' = []
      ∧ emittedRecords M M' = []
      ∧ emittedHeaders M M' = [] := by
  refine ⟨M, ?_, rfl, ?_, ?_, ?_⟩
  · unfold LLVMExtRunPassesWithCoverage
    simp only [h]
  · simp [newGlobals]
  · simp [emittedRecords, newGlobals]
  · simp [emittedHeaders, newGlobals]

/-- Witness of C7: the text `not a real pass` with coverage disabled. -/
theorem parse_failure_aborts_witness :
    sampleExternals.parsePassPipeline "not a real pass" = Except.error "unknown pass name"
      ∧ ∃ M', LLVMExtRunPassesWithCoverage sampleExternals sampleModule "not a real pass" false
          (ascii "test.c") = some (some "unknown pass name", M')
        ∧ M' = sampleModule
        ∧ newGlobals sampleModule M' = []
        ∧ emittedRecords sampleModule M' = []
        ∧ emittedHeaders sampleModule M' = [] :=
  ⟨rfl,
    parse_failure_aborts sampleExternals sampleModule "not a real pass" false (ascii "test.c")
      "unknown pass name" rfl⟩

/-- C8: when the pipeline text parses, the call returns no error. With coverage disabled the
module is the one the parsed stages leave, run in order from the input module. With
coverage enabled the module is the generator applied to the module the parsed stages
leave when run in order after the lowering pass (atomic counters); the records emitted
stand one to one against the counter arrays of that module, so a name whose `__profc_`
counter array is not in it has no record: every record is made for a counter array of
another name that is still there. -/
theorem parsed_pipeline_order (ext : Externals) (M : Module) (Passes : String)
    (SourceFile : Bytes) (stages : List ModulePass)
    (h : ext.parsePassPipeline Passes = Except.ok stages) :
    LLVMExtRunPassesWithCoverage ext M Passes false SourceFile
        = some (none, stages.foldl (fun m pass => pass m) M)
      ∧ ∃ M',
        LLVMExtGenerateCoverageMapping ext
            (stages.foldl (fun m pass => pass m) (ext.InstrProfilingLoweringPass true false M))
            SourceFile = some M'
        ∧ LLVMExtRunPassesWithCoverage ext M Passes true SourceFile = some (none, M')
        ∧ List.Forall₂
            (fun G r => RenamedFrom
              (!(stages.foldl (fun m pass => pass m)
                  (ext.InstrProfilingLoweringPass true false M)).isNVPTX)
              (makeCovFunVar ext (filenamesHash ext SourceFile) G) r)
            ((stages.foldl (fun m pass => pass m)
                (ext.InstrProfilingLoweringPass true false M)).globals.filter isCounterArray)
            (emittedRecords
              (stages.foldl (fun m pass => pass m)
                (ext.InstrProfilingLoweringPass true false M)) M')
        ∧ ∀ n : Bytes,
            (∀ G ∈ (stages.foldl (fun m pass => pass m)
                (ext.InstrProfilingLoweringPass true false M)).globals,
              G.name ≠ ascii "__profc_" ++ n) →
            ∀ r ∈ emittedRecords
                (stages.foldl (fun m pass => pass m)
                  (ext.InstrProfilingLoweringPass true false M)) M',
              ∃ G ∈ (stages.foldl (fun m pass => pass m)
                  (ext.InstrProfilingLoweringPass true false M)).globals,
                isCounterArray G = true
                ∧ substr G.name 8 ≠ n
                ∧ RenamedFrom
                    (!(stages.foldl (fun m pass => pass m)
                        (ext.InstrProfilingLoweringPass true false M)).isNVPTX)
                    (makeCovFunVar ext (filenamesHash ext SourceFile) G) r := by
  obtain ⟨M', _, hgen, _, _, _, hall⟩ := generate_emitted ext
    (stages.foldl (fun m pass => pass m) (ext.InstrProfilingLoweringPass true false M))
    SourceFile
  refine ⟨?_, M', hgen, ?_, hall, ?_⟩
  · unfold LLVMExtRunPassesWithCoverage
    simp [h, ModulePassManager.run]
  · unfold LLVMExtRunPassesWithCoverage
    simp [h, ModulePassManager.run, hgen]
  · intro n hn r hr
    obtain ⟨G, hG, hren⟩ := (forall2_records_mem ext _ _ _ _ hall).1 r hr
    obtain ⟨hG1, hG2⟩ := List.mem_filter.mp hG
    refine ⟨G, hG1, hG2, ?_, hren⟩
    intro hsub
    have hname := counterArray_name G hG2
    rw [hsub] at hname
    exact hn G hG1 hname

/-- Witness of C8: the pipeline `globaldce` of the examples deletes the counter array of
`dead`; with coverage enabled the call returns no error and every record it emits is made
for a counter array of another function. -/
theorem parsed_pipeline_order_witness :
    sampleExternals.parsePassPipeline "globaldce"
        = Except.ok [dropGlobal (ascii "__profc_dead")]
      ∧ ∃ M',
        LLVMExtRunPassesWithCoverage sampleExternals deadCodeModule "globaldce" true
            (ascii "test.c") = some (none, M')
        ∧ ∀ r ∈ emittedRecords
              ([dropGlobal (ascii "__profc_dead")].foldl (fun m pass => pass m)
                (sampleExternals.InstrProfilingLoweringPass true false deadCodeModule)) M',
            ∃ G ∈ ([dropGlobal (ascii "__profc_dead")].foldl (fun m pass => pass m)
                (sampleExternals.InstrProfilingLoweringPass true false deadCodeModule)).globals,
              isCounterArray G = true ∧ substr G.name 8 ≠ ascii "dead" :=
  ⟨rfl,
    (parsed_pipeline_order sampleExternals deadCodeModule "globaldce" (ascii "test.c")
      [dropGlobal (ascii "__profc_dead")] rfl).2.imp
      (fun _ h => ⟨h.2.1, fun r hr =>
        (h.2.2.2 (ascii "dead") (by decide) r hr).imp (fun _ h => ⟨h.1, h.2.1, h.2.2.1⟩)⟩)⟩

/-! ## The module header -/

/-- C10: the header variable is created and, started on the module that holds it, the
emission loop reaches the end of the global list for every fuel from
`length + counter arrays + 2` on. The module it leaves has the globals it started from
followed by one record per global that was a counter array before the call, in order, and
the generator returns with exactly those records. Neither the header variable nor any
record starts with `__profc_` under the name it is created with, renamed or not, so
nothing the generator creates is taken for a counter array. -/
theorem emission_loop_terminates (ext : Externals) (M : Module) (SourceFile : Bytes)
    (fuel : Nat) (hfuel : M.globals.length + M.globals.countP isCounterArray + 2 ≤ fuel) :
    ∃ M1 hdr M2 recs,
      newGlobalVariable M (makeCovMapVar ext SourceFile) = some (M1, hdr)
      ∧ M1.globals = M.globals ++ [hdr]
      ∧ emitLoop ext (filenamesHash ext SourceFile) fuel 0 M1 = some M2
      ∧ M2.globals = M.globals ++ [hdr] ++ recs
      ∧ List.Forall₂
          (fun G r => RenamedFrom (!M.isNVPTX)
            (makeCovFunVar ext (filenamesHash ext SourceFile) G) r)
          (M.globals.filter isCounterArray) recs
      ∧ recs.length = M.globals.countP isCounterArray
      ∧ starts_with hdr.name (ascii "__profc_") = false
      ∧ (∀ r ∈ recs, starts_with r.name (ascii "__profc_") = false)
      ∧ ∃ M', LLVMExtGenerateCoverageMapping ext M SourceFile = some M'
          ∧ emittedRecords M M' = recs := by
  obtain ⟨Ma, hdr, Mb, recs, M', rest, hnew, hgl, hren, hloop, hgl2, hall, hgen, hgl3, hsec⟩ :=
    generate_steps ext M SourceFile
  obtain ⟨h1, _, _⟩ := emitted_of_globals ext M M' SourceFile hdr recs rest hgl3 hren hall hsec
  refine ⟨Ma, hdr, Mb, recs, hnew, hgl, hloop fuel hfuel, ?_, hall, ?_, ?_, ?_, M', hgen, h1⟩
  · rw [hgl2, hgl]
  · rw [← hall.length_eq, List.countP_eq_length_filter]
  · exact header_not_counterArray ext SourceFile _ _ hren
  · intro r hr
    obtain ⟨G, _, hren2⟩ := (forall2_records_mem ext _ _ _ _ hall).1 r hr
    exact record_not_counterArray ext _ _ G r hren2

/-- Witness of C10: the module in which `__covrec_foo` is taken (two globals, one counter
array), with fuel 5. -/
theorem emission_loop_terminates_witness :
    collisionModule.globals.length + collisionModule.globals.countP isCounterArray + 2 ≤ 5
      ∧ ∃ M1 hdr M2 recs,
        newGlobalVariable collisionModule (makeCovMapVar sampleExternals (ascii "test.c"))
            = some (M1, hdr)
        ∧ emitLoop sampleExternals (filenamesHash sampleExternals (ascii "test.c")) 5 0 M1
            = some M2
        ∧ M2.globals = collisionModule.globals ++ [hdr] ++ recs
        ∧ recs.length = collisionModule.globals.countP isCounterArray
        ∧ ∀ r ∈ recs, starts_with r.name (ascii "__profc_") = false :=
  ⟨by decide,
    (emission_loop_terminates sampleExternals collisionModule (ascii "test.c") 5
      (by decide)).imp
      (fun _ h => h.imp (fun _ h => h.imp (fun _ h => h.imp (fun _ h =>
        ⟨h.1, h.2.2.1, h.2.2.2.1, h.2.2.2.2.2.1, h.2.2.2.2.2.2.2.1⟩))))⟩

end LLVMExt
